import Mathlib

/-!
Verification of `ndarray-interp` (`src/lib.rs`), a one-dimensional
piecewise-linear interpolation library over `ndarray` arrays, plus a stub
3D resize and a meshgrid helper.

Embedding choices:
* `Array1<f32>` is embedded as `List ℚ`.  The claims under study concern
  control flow (error paths, bracket search, ordering, lengths) and the
  exact interpolation formula; they are stated over exact rational
  arithmetic, which agrees with `f32` on every comparison and, for the
  formula itself, up to floating-point rounding (which the specification
  explicitly tolerates).
* A Rust panic (the `.unwrap()` on a failed bracket search, or an
  out-of-bounds index into `x`/`y`) is embedded as `none`; the per-query
  computation therefore returns `Option ℚ`.
* `Result<_, InterpError>` is embedded as `Except InterpError _`.
* `Array3<f32>` is embedded as a shape together with a total indexing
  function (`Arr3`); `ndarray`'s `zeros` and the lane-assignment loops of
  `meshgrid` are modelled at that level.
* The `Zip::...par_apply` parallel loop writes each output slot
  independently.  It is embedded both as a sequential `List.map`
  (`lerp`, `lerp_unchecked`) and as a fold over an arbitrary execution
  order of the query indices (`parRun`, `lerpSched`), so that schedule
  independence is a theorem rather than a modelling assumption.
-/

/-- Error type of the library: `InterpError::Range` ("xi is not bound by x")
and `InterpError::NoneArray` ("Returned none when looking for data in x"). -/
inductive InterpError where
  | Range : InterpError
  | NoneArray : InterpError
deriving DecidableEq

/-- Embedding of Rust's `Iterator::position`: index of the first element
satisfying the predicate, or `none`. -/
def position {α : Type} (p : α → Bool) : List α → Option Nat
  | [] => none
  | a :: l => if p a then some 0 else (position p l).map (· + 1)

/-- Embedding of `x.windows(2)`: the list of consecutive pairs of `x`.
For `x` of length `< 2` this is empty, exactly as `ndarray`'s window
producer is. -/
def windows2 (x : List ℚ) : List (ℚ × ℚ) := x.zip x.tail

/-- The bracket search of `lerp`/`lerp_unchecked`:
`x.windows(2).into_iter().position(|xw| xw[0] <= xi && xw[1] >= xi)`. -/
def bracketIdx (x : List ℚ) (q : ℚ) : Option Nat :=
  position (fun xw => decide (xw.1 ≤ q) && decide (xw.2 ≥ q)) (windows2 x)

/-- The per-query body of the `par_apply` closure shared by `lerp` and
`lerp_unchecked`: bracket search, then
`y0 + (xi - x0) * ((y1 - y0) / (x1 - x0))`.  A failed `.unwrap()` on the
bracket search, or an out-of-bounds index into `x` or `y`, is a Rust
panic, embedded as `none`. -/
def lerpAt (x y : List ℚ) (q : ℚ) : Option ℚ :=
  match bracketIdx x q with
  | none => none
  | some xidx =>
    match x[xidx]?, x[xidx + 1]?, y[xidx]?, y[xidx + 1]? with
    | some x0, some x1, some y0, some y1 =>
      some (y0 + (q - x0) * ((y1 - y0) / (x1 - x0)))
    | _, _, _, _ => none

/-- Embedding of `lerp`: take the first and last elements of `x`
(`NoneArray` if absent), fail with `Range` if any query is below the first
or above the last, then evaluate every query. -/
def lerp (x y xi : List ℚ) : Except InterpError (List (Option ℚ)) :=
  match x.head? with
  | none => Except.error InterpError.NoneArray
  | some xf =>
    match x.getLast? with
    | none => Except.error InterpError.NoneArray
    | some xl =>
      if xi.any (fun v => decide (v < xf) || decide (v > xl)) then
        Except.error InterpError.Range
      else
        Except.ok (xi.map (lerpAt x y))

/-- Embedding of `lerp_unchecked`: the same per-query loop with no
validation of any kind. -/
def lerp_unchecked (x y xi : List ℚ) : List (Option ℚ) :=
  xi.map (lerpAt x y)

/-- Embedding of the `Zip::from(&mut output).and(xi).par_apply(...)` loop:
the output buffer starts as zeros, and the slots are written in an
arbitrary execution order `ord` chosen by the thread pool; writing slot
`i` stores the value computed for query `i`. -/
def parRun {α : Type} (init : List α) (f : Nat → α) (ord : List Nat) : List α :=
  ord.foldl (fun acc i => acc.set i (f i)) init

/-- Embedding of `lerp` with the parallel loop made explicit: identical
validation, then the output slots are filled following the schedule
`ord` (a permutation of the query indices). -/
def lerpSched (x y xi : List ℚ) (ord : List Nat) :
    Except InterpError (List (Option ℚ)) :=
  match x.head? with
  | none => Except.error InterpError.NoneArray
  | some xf =>
    match x.getLast? with
    | none => Except.error InterpError.NoneArray
    | some xl =>
      if xi.any (fun v => decide (v < xf) || decide (v > xl)) then
        Except.error InterpError.Range
      else
        Except.ok (parRun (List.replicate xi.length (some 0))
          (fun i => lerpAt x y (xi.getD i 0)) ord)

/-- Embedding of `ndarray::Array3<f32>`: a shape and a total indexing
function. -/
structure Arr3 where
  shape : Nat × Nat × Nat
  get3 : Nat → Nat → Nat → ℚ

/-- Embedding of `Array3::<f32>::zeros((n1, n2, n3))`. -/
def zeros3 (n1 n2 n3 : Nat) : Arr3 :=
  { shape := (n1, n2, n3), get3 := fun _ _ _ => 0 }

/-- Embedding of `trilerp_resize`: ignores `_v` and returns
`Array3::<f32>::zeros((size, size, size))`. -/
def trilerp_resize (_v : Arr3) (size : Nat) : Arr3 :=
  zeros3 size size size

/-- Embedding of the `meshgrid` loop
`for lane in a.lanes_mut(Axis(0)) { for (a, b) in lane.iter_mut().zip(x.iter()) { *a = *b } }`:
every lane along axis 0 (the vector `a[·, j, k]`, of length `shape.1`)
receives the elements of `x`, truncated by `zip` to the shorter of the
lane and `x`. -/
def assignLanesAxis0 (a : Arr3) (x : List ℚ) : Arr3 :=
  { shape := a.shape,
    get3 := fun i j k =>
      if i < min a.shape.1 x.length then x.getD i 0 else a.get3 i j k }

/-- Same loop along axis 1: every lane `a[i, ·, k]` receives `x`. -/
def assignLanesAxis1 (a : Arr3) (x : List ℚ) : Arr3 :=
  { shape := a.shape,
    get3 := fun i j k =>
      if j < min a.shape.2.1 x.length then x.getD j 0 else a.get3 i j k }

/-- Same loop along axis 2: every lane `a[i, j, ·]` receives `x`. -/
def assignLanesAxis2 (a : Arr3) (x : List ℚ) : Arr3 :=
  { shape := a.shape,
    get3 := fun i j k =>
      if k < min a.shape.2.2 x.length then x.getD k 0 else a.get3 i j k }

/-- Embedding of `meshgrid`.  The Rust function takes `x` by mutable
reference; its body only reads `x`, so the first component of the result
records the value behind that reference when the function returns.  The
three arrays are `nx × nx × nx` zero arrays whose lanes along axes 0, 1, 2
respectively are overwritten with `x`. -/
def meshgrid (x : List ℚ) : List ℚ × Arr3 × Arr3 × Arr3 :=
  let nx := x.length
  let xx := assignLanesAxis0 (zeros3 nx nx nx) x
  let yy := assignLanesAxis1 (zeros3 nx nx nx) x
  let zz := assignLanesAxis2 (zeros3 nx nx nx) x
  (x, xx, yy, zz)

/-- Weakly ascending sample abscissas: each element is `≤` its successor. -/
def ascending (x : List ℚ) : Prop := List.Chain' (· ≤ ·) x

/-- Strictly ascending sample abscissas (distinct, sorted). -/
def strictAscending (x : List ℚ) : Prop := List.Chain' (· < ·) x

instance (x : List ℚ) : Decidable (ascending x) :=
  inferInstanceAs (Decidable (List.Chain' (· ≤ ·) x))

instance (x : List ℚ) : Decidable (strictAscending x) :=
  inferInstanceAs (Decidable (List.Chain' (· < ·) x))

instance exceptDecEq {ε α : Type} [DecidableEq ε] [DecidableEq α] :
    DecidableEq (Except ε α) := fun a b =>
  match a, b with
  | Except.ok a, Except.ok b =>
    if h : a = b then isTrue (h ▸ rfl)
    else isFalse (fun hc => h (Except.ok.inj hc))
  | Except.error e, Except.error f =>
    if h : e = f then isTrue (h ▸ rfl)
    else isFalse (fun hc => h (Except.error.inj hc))
  | Except.ok _, Except.error _ => isFalse (fun hc => Except.noConfusion hc)
  | Except.error _, Except.ok _ => isFalse (fun hc => Except.noConfusion hc)

/-! ### Lemmas about `position` -/

/-- Characterisation of a successful `position`: the found index is in
bounds, satisfies the predicate, and is the first index to do so. -/
theorem position_eq_some_iff {α : Type} (p : α → Bool) (d : α) :
    ∀ (l : List α) (i : Nat),
      position p l = some i ↔
        i < l.length ∧ p (l.getD i d) = true ∧
          ∀ j, j < i → p (l.getD j d) = false := by
  intro l
  induction l with
  | nil => intro i; simp [position]
  | cons a t ih =>
    intro i
    by_cases hpa : p a = true
    · simp only [position, hpa, if_true]
      constructor
      · intro h
        obtain rfl : (0 : Nat) = i := by simpa using h
        exact ⟨Nat.succ_pos _, by simpa using hpa,
          fun j hj => absurd hj (Nat.not_lt_zero j)⟩
      · rintro ⟨hi, hp, hfirst⟩
        cases i with
        | zero => rfl
        | succ i' =>
          have h0 := hfirst 0 (Nat.succ_pos _)
          simp only [List.getD_cons_zero] at h0
          rw [hpa] at h0; cases h0
    · have hpa' : p a = false := by simpa using hpa
      simp only [position, hpa', if_false, Bool.false_eq_true]
      cases i with
      | zero =>
        simp only [Option.map_eq_some']
        constructor
        · rintro ⟨i', _, h⟩; exact absurd h (Nat.succ_ne_zero i')
        · rintro ⟨_, hp, _⟩
          simp only [List.getD_cons_zero] at hp
          rw [hpa'] at hp; cases hp
      | succ i' =>
        constructor
        · intro h
          obtain ⟨j', hj', hji⟩ : ∃ j', position p t = some j' ∧ j' + 1 = i' + 1 := by
            simpa [Option.map_eq_some'] using h
          obtain rfl : j' = i' := by omega
          obtain ⟨h1, h2, h3⟩ := (ih j').1 hj'
          refine ⟨by simpa using h1, by simpa using h2, ?_⟩
          intro j hj
          cases j with
          | zero => simpa using hpa'
          | succ j'' => simpa using h3 j'' (by omega)
        · rintro ⟨h1, h2, h3⟩
          have ht : position p t = some i' := by
            refine (ih i').2 ⟨by simpa using h1, by simpa using h2, ?_⟩
            intro j hj
            simpa using h3 (j + 1) (by omega)
          simp [ht]

/-- Failure of `position`: no index in bounds satisfies the predicate. -/
theorem position_eq_none_iff {α : Type} (p : α → Bool) (d : α) :
    ∀ l : List α,
      position p l = none ↔ ∀ j, j < l.length → p (l.getD j d) = false := by
  intro l
  induction l with
  | nil => simp [position]
  | cons a t ih =>
    by_cases hpa : p a = true
    · simp only [position, hpa, if_true]
      constructor
      · intro h; cases h
      · intro h
        have h0 := h 0 (Nat.succ_pos _)
        simp only [List.getD_cons_zero] at h0
        rw [hpa] at h0; cases h0
    · have hpa' : p a = false := by simpa using hpa
      simp only [position, hpa', if_false, Bool.false_eq_true, Option.map_eq_none']
      rw [ih]
      constructor
      · intro h j hj
        cases j with
        | zero => simpa using hpa'
        | succ j' => simpa using h j' (by simpa using hj)
      · intro h j hj
        simpa using h (j + 1) (by simpa using hj)

/-! ### Lemmas about `windows2` -/

theorem windows2_length (x : List ℚ) : (windows2 x).length = x.length - 1 := by
  rw [windows2, List.length_zip, List.length_tail]
  exact Nat.min_eq_right (Nat.sub_le _ _)

theorem windows2_getD : ∀ (x : List ℚ) (k : Nat), k + 1 < x.length →
    (windows2 x).getD k (0, 0) = (x.getD k 0, x.getD (k + 1) 0)
  | [], _, h => by simp at h
  | [_], _, h => by simp at h
  | _ :: _ :: _, 0, _ => by simp [windows2]
  | a :: b :: t, k + 1, h => by
    have ih := windows2_getD (b :: t) k (by simpa using h)
    simpa [windows2] using ih

/-! ### Existence of a bracketing pair -/

/-- Discrete intermediate-value fact: in any list of length at least two
(sorted or not) whose first element is `≤ q` and whose last element is
`≥ q`, some consecutive pair brackets `q`. -/
theorem exists_bracket : ∀ (x : List ℚ) (q : ℚ), 2 ≤ x.length →
    x.getD 0 0 ≤ q → q ≤ x.getD (x.length - 1) 0 →
    ∃ k, k + 1 < x.length ∧ x.getD k 0 ≤ q ∧ q ≤ x.getD (k + 1) 0
  | [], _, h, _, _ => by simp at h
  | [_], _, h, _, _ => by simp at h
  | [_, _], q, _, h0, h1 =>
    ⟨0, by simp, by simpa using h0, by simpa using h1⟩
  | a :: b :: c :: t, q, _, h0, h1 => by
    by_cases hq : q ≤ b
    · exact ⟨0, by simp, by simpa using h0, by simpa using hq⟩
    · have hb : b ≤ q := le_of_not_le hq
      have hlast : q ≤ (b :: c :: t).getD ((b :: c :: t).length - 1) 0 := by
        simpa using h1
      obtain ⟨k, hk, hx0, hx1⟩ :=
        exists_bracket (b :: c :: t) q (by simp) (by simpa using hb) hlast
      exact ⟨k + 1, by simpa using hk, by simpa using hx0, by simpa using hx1⟩

/-! ### Lemmas about `bracketIdx` -/

/-- Characterisation of a successful bracket search: the index is in
bounds, the pair `(x[i], x[i+1])` brackets `q`, and no earlier pair
does. -/
theorem bracketIdx_eq_some_iff (x : List ℚ) (q : ℚ) (i : Nat) :
    bracketIdx x q = some i ↔
      i + 1 < x.length ∧ x.getD i 0 ≤ q ∧ q ≤ x.getD (i + 1) 0 ∧
        ∀ j, j < i → ¬(x.getD j 0 ≤ q ∧ q ≤ x.getD (j + 1) 0) := by
  rw [bracketIdx, position_eq_some_iff _ (0, 0)]
  constructor
  · rintro ⟨hi, hp, hfirst⟩
    rw [windows2_length] at hi
    have hi' : i + 1 < x.length := by omega
    rw [windows2_getD x i hi'] at hp
    simp only [decide_eq_true_eq, Bool.and_eq_true, ge_iff_le] at hp
    refine ⟨hi', hp.1, hp.2, ?_⟩
    intro j hj hcon
    have hj' : j + 1 < x.length := by omega
    have := hfirst j hj
    rw [windows2_getD x j hj'] at this
    simp only [Bool.and_eq_false_iff, decide_eq_false_iff_not, ge_iff_le] at this
    rcases this with h | h
    exacts [h hcon.1, h hcon.2]
  · rintro ⟨hi, h0, h1, hfirst⟩
    have hiw : i < (windows2 x).length := by rw [windows2_length]; omega
    refine ⟨hiw, ?_, ?_⟩
    · rw [windows2_getD x i hi]
      simp only [decide_eq_true_eq, Bool.and_eq_true, ge_iff_le]
      exact ⟨h0, h1⟩
    · intro j hj
      have hj' : j + 1 < x.length := by omega
      rw [windows2_getD x j hj']
      simp only [Bool.and_eq_false_iff, decide_eq_false_iff_not, ge_iff_le]
      by_cases hle : x.getD j 0 ≤ q
      · exact Or.inr (fun hc => hfirst j hj ⟨hle, hc⟩)
      · exact Or.inl hle

/-- Under the enforced range precondition and at least two samples, the
bracket search always succeeds. -/
theorem bracketIdx_isSome_of_in_range (x : List ℚ) (q : ℚ) (h2 : 2 ≤ x.length)
    (h0 : x.getD 0 0 ≤ q) (h1 : q ≤ x.getD (x.length - 1) 0) :
    (bracketIdx x q).isSome = true := by
  obtain ⟨k, hk, hx0, hx1⟩ := exists_bracket x q h2 h0 h1
  cases hb : bracketIdx x q with
  | some i => rfl
  | none =>
    rw [bracketIdx, position_eq_none_iff _ (0, 0)] at hb
    have hkw : k < (windows2 x).length := by rw [windows2_length]; omega
    have := hb k hkw
    rw [windows2_getD x k hk] at this
    simp only [Bool.and_eq_false_iff, decide_eq_false_iff_not, ge_iff_le] at this
    rcases this with h | h
    exacts [absurd hx0 h, absurd hx1 h]

/-! ### Unfolding helpers for `lerp` -/

/-- For non-empty `x`, the iterator's first element is `x[0]` and its last
element is `x[length - 1]`. -/
theorem head?_getLast?_of_ne_nil (x : List ℚ) (h : x ≠ []) :
    x.head? = some (x.getD 0 0) ∧ x.getLast? = some (x.getD (x.length - 1) 0) := by
  have hpos : 0 < x.length := List.length_pos.2 h
  constructor
  · rw [List.head?_eq_head h, List.head_eq_getElem, List.getD_eq_getElem x 0 hpos]
  · rw [List.getLast?_eq_getLast x h, List.getLast_eq_getElem,
      List.getD_eq_getElem x 0 (by omega)]

/-- The range check of `lerp` fires exactly when some query lies strictly
below the first sample or strictly above the last. -/
theorem any_out_of_range_iff (xi : List ℚ) (xf xl : ℚ) :
    xi.any (fun v => decide (v < xf) || decide (v > xl)) = true ↔
      ∃ v ∈ xi, v < xf ∨ xl < v := by
  simp [List.any_eq_true]

/-- In-bounds `getD` through `map`. -/
theorem getD_map_of_lt (l : List ℚ) (f : ℚ → Option ℚ) (i : Nat)
    (h : i < l.length) : (l.map f).getD i none = f (l.getD i 0) := by
  have hm : i < (l.map f).length := by simpa using h
  rw [List.getD_eq_getElem _ none hm, List.getD_eq_getElem l 0 h]
  simp

/-! ### Schedule independence of the parallel loop -/

theorem parRun_length {α : Type} (init : List α) (f : Nat → α) (ord : List Nat) :
    (parRun init f ord).length = init.length := by
  induction ord generalizing init with
  | nil => rfl
  | cons i rest ih =>
    show (parRun (init.set i (f i)) f rest).length = init.length
    rw [ih]; exact List.length_set ..

/-- Slots whose index is never scheduled keep their initial value. -/
theorem parRun_getElem?_not_mem {α : Type} (init : List α) (f : Nat → α)
    (ord : List Nat) (j : Nat) (hj : j ∉ ord) :
    (parRun init f ord)[j]? = init[j]? := by
  induction ord generalizing init with
  | nil => rfl
  | cons i rest ih =>
    have hji : i ≠ j := fun h => hj (h ▸ List.mem_cons_self i rest)
    have hjr : j ∉ rest := fun h => hj (List.mem_cons_of_mem i h)
    show (parRun (init.set i (f i)) f rest)[j]? = init[j]?
    rw [ih _ hjr, List.getElem?_set_ne hji]

/-- Every scheduled in-bounds slot ends up holding its computed value,
whatever the order. -/
theorem parRun_getElem?_mem {α : Type} (init : List α) (f : Nat → α)
    (ord : List Nat) (j : Nat) (hj : j ∈ ord) (hlen : j < init.length) :
    (parRun init f ord)[j]? = some (f j) := by
  induction ord generalizing init with
  | nil => cases hj
  | cons i rest ih =>
    show (parRun (init.set i (f i)) f rest)[j]? = some (f j)
    by_cases hjr : j ∈ rest
    · exact ih _ hjr (by rw [List.length_set]; exact hlen)
    · have hji : j = i := by
        rcases List.mem_cons.1 hj with h | h
        exacts [h, absurd h hjr]
      subst hji
      rw [parRun_getElem?_not_mem _ _ _ _ hjr, List.getElem?_set_self hlen]

/-- Running the parallel loop along any permutation of the slot indices
produces the map of the per-slot function. -/
theorem parRun_perm {α : Type} (init : List α) (f : Nat → α) (ord : List Nat)
    (hp : ord.Perm (List.range init.length)) :
    parRun init f ord = (List.range init.length).map f := by
  apply List.ext_getElem?
  intro j
  by_cases hj : j < init.length
  · rw [parRun_getElem?_mem init f ord j (hp.mem_iff.2 (List.mem_range.2 hj)) hj,
      List.getElem?_map f _ j, List.getElem?_range hj]
    rfl
  · have hj' : j ∉ ord := fun h =>
      hj (List.mem_range.1 (hp.mem_iff.1 h))
    rw [parRun_getElem?_not_mem _ _ _ _ hj',
      List.getElem?_eq_none (le_of_not_lt hj),
      List.getElem?_eq_none (by simpa using le_of_not_lt hj)]

/-- Reading the queries through their indices is the same as mapping over
the query list. -/
theorem range_map_getD (xi : List ℚ) (g : ℚ → Option ℚ) :
    (List.range xi.length).map (fun i => g (xi.getD i 0)) = xi.map g := by
  apply List.ext_getElem?
  intro j
  rw [List.getElem?_map _ _ j, List.getElem?_map g xi j]
  by_cases hj : j < xi.length
  · rw [List.getElem?_range hj, List.getElem?_eq_getElem hj,
      Option.map_some', Option.map_some', List.getD_eq_getElem xi 0 hj]
  · rw [List.getElem?_eq_none (show xi.length ≤ j from le_of_not_lt hj),
      List.getElem?_eq_none (show (List.range xi.length).length ≤ j by
        simpa using le_of_not_lt hj)]
    rfl

/-- `lerpSched` along any permutation of the query indices coincides with
the sequential `lerp`. -/
theorem lerpSched_eq_lerp (x y xi : List ℚ) (ord : List Nat)
    (hp : ord.Perm (List.range xi.length)) :
    lerpSched x y xi ord = lerp x y xi := by
  unfold lerpSched lerp
  cases hx : x.head? with
  | none => rfl
  | some xf =>
    cases hl : x.getLast? with
    | none => rfl
    | some xl =>
      by_cases hany : xi.any (fun v => decide (v < xf) || decide (v > xl)) = true
      · simp only [hany, if_true]
      · simp only [hany, if_false, Bool.false_eq_true]
        have hlen : (List.replicate xi.length (some (0 : ℚ))).length = xi.length :=
          List.length_replicate ..
        rw [parRun_perm _ _ _ (by rw [hlen]; exact hp), hlen,
          range_map_getD xi (lerpAt x y)]

/-- Value computed by the loop body once the bracket search has returned
index `i` and all four sample reads are in bounds. -/
theorem lerpAt_eq_formula (x y : List ℚ) (q : ℚ) (i : Nat)
    (hb : bracketIdx x q = some i) (hx : i + 1 < x.length) (hy : i + 1 < y.length) :
    lerpAt x y q = some (y.getD i 0 + (q - x.getD i 0) *
      ((y.getD (i + 1) 0 - y.getD i 0) / (x.getD (i + 1) 0 - x.getD i 0))) := by
  unfold lerpAt
  rw [hb]
  simp only [List.getElem?_eq_getElem (show i < x.length by omega),
    List.getElem?_eq_getElem hx,
    List.getElem?_eq_getElem (show i < y.length by omega),
    List.getElem?_eq_getElem hy,
    List.getD_eq_getElem x 0 (show i < x.length by omega),
    List.getD_eq_getElem x 0 hx,
    List.getD_eq_getElem y 0 (show i < y.length by omega),
    List.getD_eq_getElem y 0 hy]

/-- For non-empty `x`, `lerp` reduces to the range check followed by the
interpolation loop. -/
theorem lerp_of_ne_nil (x y xi : List ℚ) (hx : x ≠ []) :
    lerp x y xi =
      if xi.any (fun v =>
          decide (v < x.getD 0 0) || decide (v > x.getD (x.length - 1) 0)) then
        Except.error InterpError.Range
      else
        Except.ok (xi.map (lerpAt x y)) := by
  obtain ⟨hh, hl⟩ := head?_getLast?_of_ne_nil x hx
  unfold lerp
  rw [hh, hl]

/-- When every query is in range, `lerp` succeeds and returns the mapped
interpolation loop. -/
theorem lerp_ok_of_in_range (x y xi : List ℚ) (hx : x ≠ [])
    (hin : ∀ v ∈ xi, x.getD 0 0 ≤ v ∧ v ≤ x.getD (x.length - 1) 0) :
    lerp x y xi = Except.ok (xi.map (lerpAt x y)) := by
  have hany : ¬(xi.any (fun v =>
      decide (v < x.getD 0 0) || decide (v > x.getD (x.length - 1) 0)) = true) := by
    intro hany
    obtain ⟨v, hv, hor⟩ := (any_out_of_range_iff xi _ _).1 hany
    obtain ⟨h0, h1⟩ := hin v hv
    rcases hor with h | h
    exacts [absurd h0 (not_le.2 h), absurd h1 (not_le.2 h)]
  rw [lerp_of_ne_nil x y xi hx, if_neg hany]

/-- Strictly ascending samples are strictly monotone position-wise. -/
theorem strictAscending_getD_lt (x : List ℚ) (hasc : strictAscending x)
    (i j : Nat) (hij : i < j) (hj : j < x.length) :
    x.getD i 0 < x.getD j 0 := by
  have hpw : List.Pairwise (· < ·) x := List.chain'_iff_pairwise.1 hasc
  have hi : i < x.length := lt_trans hij hj
  have h := List.pairwise_iff_get.1 hpw ⟨i, hi⟩ ⟨j, hj⟩ hij
  rw [List.getD_eq_getElem x 0 hi, List.getD_eq_getElem x 0 hj]
  simpa [List.get_eq_getElem] using h

/-! ### Claim theorems -/

/-- C1: for every non-empty ascending `x` of length at least 2, `y` of the
same length, and `xi` with every element in the closed interval from
`x[0]` to `x[last]`, `lerp` returns `Ok` with a result of the same length
and order as `xi`, whose element `i` equals
`y[k] + (xi[i] - x[k]) * ((y[k+1] - y[k]) / (x[k+1] - x[k]))` where `k` is
the first index such that `x[k] ≤ xi[i] ≤ x[k+1]`. -/
theorem lerp_correct (x y xi : List ℚ)
    (_hasc : ascending x) (h2 : 2 ≤ x.length) (hy : y.length = x.length)
    (hin : ∀ v ∈ xi, x.getD 0 0 ≤ v ∧ v ≤ x.getD (x.length - 1) 0) :
    ∃ r, lerp x y xi = Except.ok r ∧ r.length = xi.length ∧
      ∀ i, i < xi.length →
        ∃ k, k + 1 < x.length ∧
          x.getD k 0 ≤ xi.getD i 0 ∧ xi.getD i 0 ≤ x.getD (k + 1) 0 ∧
          (∀ j, j < k →
            ¬(x.getD j 0 ≤ xi.getD i 0 ∧ xi.getD i 0 ≤ x.getD (j + 1) 0)) ∧
          r.getD i none = some (y.getD k 0 + (xi.getD i 0 - x.getD k 0) *
            ((y.getD (k + 1) 0 - y.getD k 0) /
              (x.getD (k + 1) 0 - x.getD k 0))) := by
  have hx : x ≠ [] := by intro h; rw [h] at h2; simp at h2
  refine ⟨xi.map (lerpAt x y), lerp_ok_of_in_range x y xi hx hin, by simp, ?_⟩
  intro i hi
  have hqmem : xi.getD i 0 ∈ xi := by
    rw [List.getD_eq_getElem xi 0 hi]; exact List.getElem_mem hi
  obtain ⟨h0, h1⟩ := hin _ hqmem
  have hsome := bracketIdx_isSome_of_in_range x (xi.getD i 0) h2 h0 h1
  obtain ⟨k, hb⟩ : ∃ k, bracketIdx x (xi.getD i 0) = some k := by
    cases hbb : bracketIdx x (xi.getD i 0) with
    | none => rw [hbb] at hsome; cases hsome
    | some k => exact ⟨k, rfl⟩
  obtain ⟨hk1, hk0, hk2, hkfirst⟩ := (bracketIdx_eq_some_iff x _ k).1 hb
  refine ⟨k, hk1, hk0, hk2, hkfirst, ?_⟩
  rw [getD_map_of_lt xi (lerpAt x y) i hi]
  exact lerpAt_eq_formula x y _ k hb hk1 (by omega)

/-- C1 witness: concrete in-range evaluation on `x = [1, 2, 3]`,
`y = [10, 20, 40]`, `xi = [1, 2, 3]`. -/
theorem lerp_correct_witness :
    ascending [(1 : ℚ), 2, 3] ∧
    (∃ r, lerp [(1 : ℚ), 2, 3] [10, 20, 40] [1, 2, 3] = Except.ok r ∧
      r.length = ([(1 : ℚ), 2, 3] : List ℚ).length ∧
      ∀ i, i < ([(1 : ℚ), 2, 3] : List ℚ).length →
        ∃ k, k + 1 < ([(1 : ℚ), 2, 3] : List ℚ).length ∧
          ([(1 : ℚ), 2, 3] : List ℚ).getD k 0 ≤ ([(1 : ℚ), 2, 3] : List ℚ).getD i 0 ∧
          ([(1 : ℚ), 2, 3] : List ℚ).getD i 0 ≤ ([(1 : ℚ), 2, 3] : List ℚ).getD (k + 1) 0 ∧
          (∀ j, j < k →
            ¬(([(1 : ℚ), 2, 3] : List ℚ).getD j 0 ≤ ([(1 : ℚ), 2, 3] : List ℚ).getD i 0 ∧
              ([(1 : ℚ), 2, 3] : List ℚ).getD i 0 ≤ ([(1 : ℚ), 2, 3] : List ℚ).getD (j + 1) 0)) ∧
          r.getD i none = some (([(10 : ℚ), 20, 40] : List ℚ).getD k 0 +
            (([(1 : ℚ), 2, 3] : List ℚ).getD i 0 - ([(1 : ℚ), 2, 3] : List ℚ).getD k 0) *
            ((([(10 : ℚ), 20, 40] : List ℚ).getD (k + 1) 0 - ([(10 : ℚ), 20, 40] : List ℚ).getD k 0) /
              (([(1 : ℚ), 2, 3] : List ℚ).getD (k + 1) 0 - ([(1 : ℚ), 2, 3] : List ℚ).getD k 0)))) :=
  ⟨by norm_num [ascending, List.chain'_cons],
    lerp_correct [(1 : ℚ), 2, 3] [10, 20, 40] [1, 2, 3]
      (by norm_num [ascending, List.chain'_cons]) (by decide) (by decide)
      (by decide)⟩

/-- C2: for every non-empty `x`, `lerp` fails with the "query out of
range" error `InterpError.Range` exactly when some element of `xi` lies
outside the closed interval from `x[0]` to `x[last]`.  The `Except.error`
constructor carries no payload, so no partial results accompany the
failure, and the error branch precedes the interpolation loop in the
definition of `lerp`. -/
theorem lerp_range_error_iff (x y xi : List ℚ) (hx : x ≠ []) :
    lerp x y xi = Except.error InterpError.Range ↔
      ∃ v ∈ xi, v < x.getD 0 0 ∨ x.getD (x.length - 1) 0 < v := by
  rw [lerp_of_ne_nil x y xi hx]
  by_cases hany : xi.any (fun v =>
      decide (v < x.getD 0 0) || decide (v > x.getD (x.length - 1) 0)) = true
  · rw [if_pos hany]
    exact ⟨fun _ => (any_out_of_range_iff xi _ _).1 hany, fun _ => rfl⟩
  · rw [if_neg hany]
    constructor
    · intro h; exact Except.noConfusion h
    · intro hex
      exact absurd ((any_out_of_range_iff xi _ _).2 hex) hany

/-- C2 witness: a query above the last sample produces the `Range`
error. -/
theorem lerp_range_error_iff_witness :
    lerp [(0 : ℚ), 1] [(5 : ℚ), 6] [(2 : ℚ)] = Except.error InterpError.Range :=
  (lerp_range_error_iff [(0 : ℚ), 1] [(5 : ℚ), 6] [(2 : ℚ)] (by decide)).2
    ⟨2, by decide, Or.inr (by norm_num)⟩

/-- C3 counterexample: `x = [5]` is non-empty and the query `5` lies in
the closed interval from `x[0]` to `x[last]` (both are `5`), yet the
bracket search finds nothing — `windows(2)` of a one-element array is
empty — so the `.unwrap()` is reached and panics (embedded as `none`). -/
theorem lerp_bracket_fail_singleton :
    ([(5 : ℚ)] : List ℚ) ≠ [] ∧
    (∀ v ∈ ([(5 : ℚ)] : List ℚ),
      ([(5 : ℚ)] : List ℚ).getD 0 0 ≤ v ∧
        v ≤ ([(5 : ℚ)] : List ℚ).getD (([(5 : ℚ)] : List ℚ).length - 1) 0) ∧
    bracketIdx [(5 : ℚ)] 5 = none ∧
    lerp [(5 : ℚ)] [(7 : ℚ)] [(5 : ℚ)] = Except.ok [none] := by decide

/-- C3 (amended): for every `x` of length at least 2 and `xi` whose
elements all lie within the closed interval from `x[0]` to `x[last]`, the
per-query bracket search always finds a bracketing pair, so the unwrap /
fatal internal-invariant path is unreachable. -/
theorem bracket_search_total (x xi : List ℚ) (q : ℚ) (h2 : 2 ≤ x.length)
    (hq : q ∈ xi)
    (hin : ∀ v ∈ xi, x.getD 0 0 ≤ v ∧ v ≤ x.getD (x.length - 1) 0) :
    (bracketIdx x q).isSome = true :=
  bracketIdx_isSome_of_in_range x q h2 (hin q hq).1 (hin q hq).2

/-- C3 witness: the bracket search succeeds on a two-sample set. -/
theorem bracket_search_total_witness :
    (bracketIdx [(1 : ℚ), 2] 1).isSome = true :=
  bracket_search_total [(1 : ℚ), 2] [(1 : ℚ)] 1
    (by decide) (by decide) (by decide)

/-- C4: for every non-empty ascending `x` and `xi` entirely within the
closed interval from `x[0]` to `x[last]`, `lerp` returns `Ok` of exactly
the array `lerp_unchecked` returns. -/
theorem lerp_eq_lerp_unchecked (x y xi : List ℚ) (hx : x ≠ [])
    (_hasc : ascending x)
    (hin : ∀ v ∈ xi, x.getD 0 0 ≤ v ∧ v ≤ x.getD (x.length - 1) 0) :
    lerp x y xi = Except.ok (lerp_unchecked x y xi) :=
  lerp_ok_of_in_range x y xi hx hin

/-- C4 witness: checked and unchecked agree on a concrete in-range
input. -/
theorem lerp_eq_lerp_unchecked_witness :
    lerp [(1 : ℚ), 2, 3] [10, 20, 40] [1, 2, 3] =
      Except.ok (lerp_unchecked [(1 : ℚ), 2, 3] [10, 20, 40] [1, 2, 3]) :=
  lerp_eq_lerp_unchecked [(1 : ℚ), 2, 3] [10, 20, 40] [1, 2, 3]
    (by decide) (by norm_num [ascending, List.chain'_cons]) (by decide)

/-- C5: for empty `x`, `lerp` fails with the missing-data error
`InterpError.NoneArray` (the spec's `EmptySampleSet`) for every `y` and
every `xi`. -/
theorem lerp_empty_noneArray (y xi : List ℚ) :
    lerp [] y xi = Except.error InterpError.NoneArray := rfl

/-- C6 counterexample: the claim fails for (weakly) ascending `x`.  With
`x = [1, 2, 2]` — ascending under this file's `ascending` predicate, of
length 3 — matching `y = [10, 20, 30]`, and the query `x[2] = 2`, the
first bracketing window is `(x[0], x[1]) = (1, 2)`, so the code returns
`y[0] + (2 - 1) * ((y[1] - y[0]) / (x[1] - x[0])) = 20`, not
`y[2] = 30`: a discrepancy of 10, not a floating-point rounding
artifact. -/
theorem lerpAt_sample_node_counterexample :
    ascending [(1 : ℚ), 2, 2] ∧
    2 ≤ ([(1 : ℚ), 2, 2] : List ℚ).length ∧
    ([(10 : ℚ), 20, 30] : List ℚ).length = ([(1 : ℚ), 2, 2] : List ℚ).length ∧
    2 < ([(1 : ℚ), 2, 2] : List ℚ).length ∧
    lerpAt [(1 : ℚ), 2, 2] [10, 20, 30] (([(1 : ℚ), 2, 2] : List ℚ).getD 2 0) =
      some 20 ∧
    lerpAt [(1 : ℚ), 2, 2] [10, 20, 30] (([(1 : ℚ), 2, 2] : List ℚ).getD 2 0) ≠
      some (([(10 : ℚ), 20, 30] : List ℚ).getD 2 0) := by
  have hb : bracketIdx [(1 : ℚ), 2, 2] 2 = some 0 := by decide
  have hval : lerpAt [(1 : ℚ), 2, 2] [10, 20, 30] 2 = some 20 := by
    rw [lerpAt_eq_formula [(1 : ℚ), 2, 2] [10, 20, 30] 2 0 hb (by decide)
      (by decide)]
    norm_num
  have hq : ([(1 : ℚ), 2, 2] : List ℚ).getD 2 0 = 2 := by decide
  have hy2 : ([(10 : ℚ), 20, 30] : List ℚ).getD 2 0 = 30 := by decide
  refine ⟨by norm_num [ascending, List.chain'_cons], by decide, by decide,
    by decide, by rw [hq]; exact hval, ?_⟩
  rw [hq, hy2, hval]
  intro hc
  exact absurd (Option.some.inj hc) (by norm_num)

/-- C6 (amended): for strictly ascending `x` of length at least 2 and
matching `y`, the interpolation loop evaluated at a query equal to the
sample abscissa `x[k]` returns exactly `y[k]` (exact rational arithmetic;
the Rust code computes the same formula in `f32`, hence equality up to
floating-point rounding there).  The strictness is forced by the
counterexample above: with a duplicated abscissa the first bracketing
window can end strictly before `x[k]`, and the spec leaves duplicate-`x`
behaviour unspecified. -/
theorem lerpAt_sample_node (x y : List ℚ) (k : Nat)
    (hasc : strictAscending x) (h2 : 2 ≤ x.length)
    (hy : y.length = x.length) (hk : k < x.length) :
    lerpAt x y (x.getD k 0) = some (y.getD k 0) := by
  cases k with
  | zero =>
    have hb : bracketIdx x (x.getD 0 0) = some 0 := by
      rw [bracketIdx_eq_some_iff]
      exact ⟨by omega, le_refl _,
        le_of_lt (strictAscending_getD_lt x hasc 0 1 (by omega) (by omega)),
        fun j hj => absurd hj (Nat.not_lt_zero j)⟩
    rw [lerpAt_eq_formula x y _ 0 hb (by omega) (by omega)]
    simp
  | succ k' =>
    have hlt : x.getD k' 0 < x.getD (k' + 1) 0 :=
      strictAscending_getD_lt x hasc k' (k' + 1) (by omega) hk
    have hb : bracketIdx x (x.getD (k' + 1) 0) = some k' := by
      rw [bracketIdx_eq_some_iff]
      refine ⟨hk, le_of_lt hlt, le_refl _, ?_⟩
      intro j hj hcon
      exact absurd hcon.2
        (not_le.2 (strictAscending_getD_lt x hasc (j + 1) (k' + 1) (by omega) hk))
    rw [lerpAt_eq_formula x y _ k' hb hk (by omega)]
    have hne : x.getD (k' + 1) 0 - x.getD k' 0 ≠ 0 := sub_ne_zero.2 (ne_of_gt hlt)
    rw [← mul_div_assoc, mul_div_cancel_left₀ _ hne]
    congr 1
    ring

/-- C6 witness: querying at the middle sample of `x = [1, 2, 3]` returns
the middle ordinate of `y = [10, 20, 40]`. -/
theorem lerpAt_sample_node_witness :
    lerpAt [(1 : ℚ), 2, 3] [10, 20, 40] (([(1 : ℚ), 2, 3] : List ℚ).getD 1 0) =
      some (([(10 : ℚ), 20, 40] : List ℚ).getD 1 0) :=
  lerpAt_sample_node [(1 : ℚ), 2, 3] [10, 20, 40] 1
    (by norm_num [strictAscending, List.chain'_cons]) (by decide) (by decide)
    (by decide)

/-- C7: `lerp` is deterministic despite the parallel evaluation of
queries: running the output-writing loop along any two schedules (each a
permutation of the query indices, as produced by the work-distributing
thread pool) yields identical outcomes, and each equals the sequential
`lerp`.  The embedding passes all three arrays by value, matching the
shared read-only borrows of the Rust signature, so the inputs cannot be
modified. -/
theorem lerp_deterministic (x y xi : List ℚ) (ord1 ord2 : List Nat)
    (h1 : ord1.Perm (List.range xi.length))
    (h2 : ord2.Perm (List.range xi.length)) :
    lerpSched x y xi ord1 = lerpSched x y xi ord2 ∧
    lerpSched x y xi ord1 = lerp x y xi := by
  have e1 := lerpSched_eq_lerp x y xi ord1 h1
  have e2 := lerpSched_eq_lerp x y xi ord2 h2
  exact ⟨e1.trans e2.symm, e1⟩

/-- C7 witness: two opposite schedules over a two-query input give the
same result as the sequential run. -/
theorem lerp_deterministic_witness :
    lerpSched [(1 : ℚ), 2, 3] [10, 20, 40] [1, 2] [1, 0] =
      lerpSched [(1 : ℚ), 2, 3] [10, 20, 40] [1, 2] [0, 1] ∧
    lerpSched [(1 : ℚ), 2, 3] [10, 20, 40] [1, 2] [1, 0] =
      lerp [(1 : ℚ), 2, 3] [10, 20, 40] [1, 2] :=
  lerp_deterministic [(1 : ℚ), 2, 3] [10, 20, 40] [1, 2] [1, 0] [0, 1]
    (by decide) (by decide)

/-- C8: for every input array `v` and every `size`, `trilerp_resize`
returns a `size × size × size` array whose entries are all zero; the
result does not depend on `v` and no interpolation is performed. -/
theorem trilerp_resize_zero_stub (v w : Arr3) (size i j k : Nat) :
    trilerp_resize v size = trilerp_resize w size ∧
    (trilerp_resize v size).shape = (size, size, size) ∧
    (trilerp_resize v size).get3 i j k = 0 :=
  ⟨rfl, rfl, rfl⟩

/-- C9: neither `lerp` nor `lerp_unchecked` validates that `y` has the
same length as `x`: with `x = [0, 2]` non-empty, the single query `1`
within range, and `y = []` shorter than `x`, the range check passes, the
bracket search succeeds at index 0, and the loop's read of `y[0]` is out
of bounds (a panic, embedded as `none`) — so the "`y` same length as `x`"
precondition is enforced only by the caller. -/
theorem lerp_no_y_length_check :
    ([(0 : ℚ), 2] : List ℚ) ≠ [] ∧
    (∀ v ∈ ([(1 : ℚ)] : List ℚ),
      ([(0 : ℚ), 2] : List ℚ).getD 0 0 ≤ v ∧
        v ≤ ([(0 : ℚ), 2] : List ℚ).getD 1 0) ∧
    ([] : List ℚ).length < ([(0 : ℚ), 2] : List ℚ).length ∧
    bracketIdx [(0 : ℚ), 2] 1 = some 0 ∧
    ([] : List ℚ)[0]? = none ∧
    lerp [(0 : ℚ), 2] [] [1] = Except.ok [none] ∧
    lerp_unchecked [(0 : ℚ), 2] [] [1] = [none] := by decide

/-- C10: `meshgrid` never modifies the array behind its mutable
reference — the value at return equals the input — and the three returned
`nx × nx × nx` arrays broadcast `x` along axes 0, 1 and 2 respectively:
`xx[i,j,k] = x[i]`, `yy[i,j,k] = x[j]`, `zz[i,j,k] = x[k]`.  `meshgrid`
is a function of the value of `x` alone. -/
theorem meshgrid_frame_and_broadcast (x : List ℚ) (i j k : Nat)
    (hi : i < x.length) (hj : j < x.length) (hk : k < x.length) :
    (meshgrid x).1 = x ∧
    (meshgrid x).2.1.shape = (x.length, x.length, x.length) ∧
    (meshgrid x).2.2.1.shape = (x.length, x.length, x.length) ∧
    (meshgrid x).2.2.2.shape = (x.length, x.length, x.length) ∧
    (meshgrid x).2.1.get3 i j k = x.getD i 0 ∧
    (meshgrid x).2.2.1.get3 i j k = x.getD j 0 ∧
    (meshgrid x).2.2.2.get3 i j k = x.getD k 0 := by
  refine ⟨rfl, rfl, rfl, rfl, ?_, ?_, ?_⟩ <;>
    simp [meshgrid, assignLanesAxis0, assignLanesAxis1, assignLanesAxis2,
      zeros3, hi, hj, hk]

/-- C10 witness: concrete evaluation on `x = [1, 2]`. -/
theorem meshgrid_frame_and_broadcast_witness :
    (meshgrid [(1 : ℚ), 2]).1 = [(1 : ℚ), 2] ∧
    (meshgrid [(1 : ℚ), 2]).2.1.shape = (2, 2, 2) ∧
    (meshgrid [(1 : ℚ), 2]).2.2.1.shape = (2, 2, 2) ∧
    (meshgrid [(1 : ℚ), 2]).2.2.2.shape = (2, 2, 2) ∧
    (meshgrid [(1 : ℚ), 2]).2.1.get3 0 1 1 = ([(1 : ℚ), 2] : List ℚ).getD 0 0 ∧
    (meshgrid [(1 : ℚ), 2]).2.2.1.get3 0 1 1 = ([(1 : ℚ), 2] : List ℚ).getD 1 0 ∧
    (meshgrid [(1 : ℚ), 2]).2.2.2.get3 0 1 1 = ([(1 : ℚ), 2] : List ℚ).getD 1 0 :=
  meshgrid_frame_and_broadcast [(1 : ℚ), 2] 0 1 1
    (by decide) (by decide) (by decide)
